import Mathlib

/-
  Verification of the torii-hdl expression IR (`src/torii/hdl/ast.py`).

  This file gives a shallow embedding of the data model and the operations of
  the IR core: shapes and shape inference of operator nodes, constant
  normalization, range shape casting, the ArrayProxy shape rule, the Array
  freeze state machine, the structural ValueKey equality, pattern matching,
  and Switch case-key normalization.  Machine integers of the source are
  embedded as Nat/Int with explicit modular arithmetic; fallible code returns
  Except.
-/

namespace Torii

/-- Bit width and signedness of a value; embeds class `Shape` of
`src/torii/hdl/ast.py` (a pair of a non-negative `width` and a `signed` flag). -/
structure Shape where
  width : Nat
  signed : Bool
  deriving DecidableEq, Repr

/-- Shorthand for `Shape(width, signed=False)` (`unsigned` in the source). -/
def unsigned (width : Nat) : Shape := ⟨width, false⟩

/-- Shorthand for `Shape(width, signed=True)` (`signed` in the source). -/
def signed (width : Nat) : Shape := ⟨width, true⟩

/-- Embeds the inner helper `_bitwise_binary_shape` of `Operator.shape`
(`src/torii/hdl/ast.py` lines 710-724): promotion of two operand shapes. -/
def bitwiseBinaryShape (a b : Shape) : Shape :=
  if !a.signed && !b.signed then
    -- both operands unsigned
    ⟨max a.width b.width, false⟩
  else if a.signed && b.signed then
    -- both operands signed
    ⟨max a.width b.width, true⟩
  else if !a.signed && b.signed then
    -- first operand unsigned (add sign bit), second operand signed
    ⟨max (a.width + 1) b.width, true⟩
  else
    -- first signed, second operand unsigned (add sign bit)
    ⟨max a.width (b.width + 1), true⟩

/-- Embeds `Operator.shape` (`src/torii/hdl/ast.py` lines 709-764), dispatching
on the operator tag and the list of operand shapes.  The `assert not b_signed`
statements of the source and the final `NotImplementedError` are embedded as
`Except.error`. -/
def operatorShape (operator : String) (opShapes : List Shape) : Except String Shape :=
  match opShapes with
  | [a] =>
    if operator = "+" ∨ operator = "~" then .ok ⟨a.width, a.signed⟩
    else if operator = "-" then .ok ⟨a.width + 1, true⟩
    else if operator = "b" ∨ operator = "r|" ∨ operator = "r&" ∨ operator = "r^" then .ok ⟨1, false⟩
    else if operator = "u" then .ok ⟨a.width, false⟩
    else if operator = "s" then .ok ⟨a.width, true⟩
    else .error "Operator not implemented"
  | [a, b] =>
    if operator = "+" ∨ operator = "-" then
      let s := bitwiseBinaryShape a b
      .ok ⟨s.width + 1, s.signed⟩
    else if operator = "*" then .ok ⟨a.width + b.width, a.signed || b.signed⟩
    else if operator = "//" then .ok ⟨a.width + (if b.signed then 1 else 0), a.signed || b.signed⟩
    else if operator = "%" then .ok ⟨b.width, b.signed⟩
    else if operator = "<" ∨ operator = "<=" ∨ operator = "==" ∨ operator = "!="
        ∨ operator = ">" ∨ operator = ">=" then .ok ⟨1, false⟩
    else if operator = "&" ∨ operator = "^" ∨ operator = "|" then .ok (bitwiseBinaryShape a b)
    else if operator = "<<" then
      if b.signed then .error "assert not b_signed"
      else .ok ⟨a.width + 2 ^ b.width - 1, a.signed⟩
    else if operator = ">>" then
      if b.signed then .error "assert not b_signed"
      else .ok ⟨a.width, a.signed⟩
    else .error "Operator not implemented"
  | [_, a, b] =>
    if operator = "m" then .ok (bitwiseBinaryShape a b)
    else .error "Operator not implemented"
  | _ => .error "Operator not implemented"

/-- Embeds `Value.__lshift__` together with the private helper
`Value.__check_shamt` (`src/torii/hdl/ast.py` lines 230-241): the shift amount
is cast to a value and its shape checked; a signed shift amount raises
`TypeError` before the `Operator` node is constructed.  On success the
constructed node is `Operator('<<', [self, other])`, here represented by its
tag and the ordered operand shapes. -/
def lshift (a b : Shape) : Except String (String × List Shape) :=
  if b.signed then .error "TypeError: Shift amount must be unsigned"
  else .ok ("<<", [a, b])

/-- Embeds `Const.normalize` (`src/torii/hdl/ast.py` lines 636-643).  Python's
arbitrary-precision bitwise operations are embedded arithmetically:
with `mask = (1 << width) - 1`, the statement `value &= mask` is
`value mod 2 ^ width` (Python `%` on a positive modulus is non-negative, as is
Lean's `Int.emod`); on the masked value the truthiness of
`value >> (width - 1)` is `2 ^ (width - 1) <= value`; and `value |= ~mask` on a
masked value is `value - 2 ^ width`.  When `width = 0` and `signed` is set the
source evaluates `value >> -1`, which raises `ValueError: negative shift count`
in Python; that is the `Except.error` case. -/
def normalize (value : Int) (shape : Shape) : Except String Int :=
  let value := value % (2 : Int) ^ shape.width
  if shape.signed then
    if shape.width = 0 then .error "ValueError: negative shift count"
    else if (2 : Int) ^ (shape.width - 1) ≤ value then .ok (value - 2 ^ shape.width)
    else .ok value
  else .ok value

/-- Fuel-driven bit length: `bitLenAux fuel n` is the number of binary digits
of `n`, provided `fuel` bounds that number.  The fuel makes the recursion
structural, so concrete values reduce definitionally. -/
def bitLenAux : Nat → Nat → Nat
  | 0, _ => 0
  | fuel + 1, n => if n = 0 then 0 else bitLenAux fuel (n / 2) + 1

/-- Number of binary digits of `n` (`n.bit_length()` in Python); `n` itself is
always enough fuel. -/
def bitLen (n : Nat) : Nat := bitLenAux n n

/-- Modelled from the spec: `bits_for(n, require_sign_bit)` lives in
`torii/util/units.py`, which is not under `src/`.  The spec describes it as
the number of bits required to represent a value ("wide enough to represent
every element", "Reset value ... requires N bits to represent").  For a
positive `n` this is the bit length of `n`, plus one when a sign bit is
required; for a non-positive `n` a sign bit is always required and the result
is the bit length of `-n - 1` plus one (two's complement), so that
`bits_for 0 = 1`. -/
def bits_for (n : Int) (require_sign_bit : Bool) : Nat :=
  if 0 < n then bitLen n.toNat + (if require_sign_bit then 1 else 0)
  else bitLen (-n - 1).toNat + 1

/-- A Python `range(start, stop, step)` object (with `step /= 0`, which the
Python constructor enforces). -/
structure PyRange where
  start : Int
  stop : Int
  step : Int

/-- Emptiness of a Python range (`len(obj) == 0` in `Shape.cast`). -/
def PyRange.isEmpty (r : PyRange) : Bool :=
  if 0 < r.step then r.stop ≤ r.start else r.start ≤ r.stop

/-- Membership of an integer in a Python range. -/
def PyRange.mem (r : PyRange) (v : Int) : Prop :=
  (0 < r.step ∧ r.start ≤ v ∧ v < r.stop ∧ r.step ∣ (v - r.start))
  ∨ (r.step < 0 ∧ r.stop < v ∧ v ≤ r.start ∧ r.step ∣ (v - r.start))

instance (r : PyRange) (v : Int) : Decidable (r.mem v) := by
  unfold PyRange.mem; infer_instance

/-- Embeds the `range` branch of `Shape.cast` (`src/torii/hdl/ast.py` lines
102-110): an empty range gives `Shape(0, start < 0)`; otherwise the result is
signed when `start < 0 or (stop - step) < 0` and the width is the larger of
`bits_for(start, signed)` and `bits_for(stop - step, signed)`. -/
def rangeShape (r : PyRange) : Shape :=
  if r.isEmpty then ⟨0, decide (r.start < 0)⟩
  else
    let sgn := r.start < 0 ∨ r.stop - r.step < 0
    ⟨max (bits_for r.start (decide sgn)) (bits_for (r.stop - r.step) (decide sgn)),
      decide sgn⟩

/-- The set of mathematical values representable by a shape: `[0, 2^width)`
when unsigned, `[-2^(width-1), 2^(width-1))` in two's complement when
signed. -/
def Shape.represents (s : Shape) (v : Int) : Prop :=
  (s.signed = false ∧ 0 ≤ v ∧ v < (2 : Int) ^ s.width)
  ∨ (s.signed = true ∧ -((2 : Int) ^ (s.width - 1)) ≤ v ∧ v < (2 : Int) ^ (s.width - 1))

instance (s : Shape) (v : Int) : Decidable (s.represents v) := by
  unfold Shape.represents; infer_instance

/-- Big-endian binary digits of `n`, accumulator style, mirroring the shape of
Python's `format(n, 'b')`.  The fuel makes the recursion structural so that
concrete values reduce definitionally; any fuel at least the digit count gives
the full digit string. -/
def natBitsAux : Nat → Nat → List Char → List Char
  | 0, _, acc => acc
  | fuel + 1, n, acc =>
    let d : Char := if n % 2 = 1 then '1' else '0'
    if n / 2 = 0 then d :: acc else natBitsAux fuel (n / 2) (d :: acc)

/-- Embeds Python's `format(n, 'b')` for a non-negative `n`: the binary digits
of `n` with no leading zeros, and the single digit `0` for `n = 0`. -/
def formatBin (n : Nat) : String := ⟨natBitsAux (n + 1) n []⟩

/-- Embeds Python's `str.rjust(width, fill)`: pad on the left up to `width`;
a string already at least `width` long is returned unchanged. -/
def rjust (s : String) (width : Nat) (fill : Char) : String :=
  ⟨List.replicate (width - s.length) fill ++ s.data⟩

/-- Embeds the integer/enum-member arm of the case-key normalization loop of
`Switch.__init__` (`src/torii/hdl/ast.py` lines 1577-1588): with
`key_mask = (1 << len(self.test)) - 1`, the key becomes
`format(key & key_mask, 'b').rjust(len(self.test), '0')` (an enum member
contributes `key.value` the same way), after which the source asserts
`len(key) == len(self.test)`; the failing assert is the `Except.error` case.
Masking an arbitrary-precision integer with `2 ^ width - 1` is `mod 2 ^ width`
(non-negative). -/
def switchKeyInt (testWidth : Nat) (key : Int) : Except String String :=
  let masked : Nat := (key % (2 : Int) ^ testWidth).toNat
  let s := rjust (formatBin masked) testWidth '0'
  if s.length = testWidth then .ok s else .error "AssertionError"

/-- The running state of the element scan in `ArrayProxy.shape`
(`src/torii/hdl/ast.py` lines 1268-1289): largest unsigned and signed element
widths seen so far, and whether any unsigned/signed element was seen. -/
structure ProxyAcc where
  unsignedWidth : Nat
  signedWidth : Nat
  hasUnsigned : Bool
  hasSigned : Bool
  deriving DecidableEq, Repr

/-- One iteration of the `for` loop of `ArrayProxy.shape`. -/
def proxyShapeStep (acc : ProxyAcc) (s : Shape) : ProxyAcc :=
  if s.signed then { acc with hasSigned := true, signedWidth := max acc.signedWidth s.width }
  else { acc with hasUnsigned := true, unsignedWidth := max acc.unsignedWidth s.width }

/-- Embeds `ArrayProxy.shape` as a function of the element shapes: scan the
elements, then widen by one bit into a signed result when the array mixes
signed and unsigned elements and `unsigned_width >= signed_width`, else return
`Shape(max(unsigned_width, signed_width), has_signed)`. -/
def proxyShape (elems : List Shape) : Shape :=
  let st := elems.foldl proxyShapeStep ⟨0, 0, false, false⟩
  if st.hasSigned && st.hasUnsigned && decide (st.signedWidth ≤ st.unsignedWidth) then
    signed (st.unsignedWidth + 1)
  else
    ⟨max st.unsignedWidth st.signedWidth, st.hasSigned⟩

/-- The maximum width of the unsigned shapes in a list (0 when there are
none); the claim-side reading of `unsigned_width`. -/
def maxUnsignedWidth : List Shape → Nat
  | [] => 0
  | s :: rest => if s.signed then maxUnsignedWidth rest else max s.width (maxUnsignedWidth rest)

/-- The maximum width of the signed shapes in a list (0 when there are none);
the claim-side reading of `signed_width`. -/
def maxSignedWidth : List Shape → Nat
  | [] => 0
  | s :: rest => if s.signed then max s.width (maxSignedWidth rest) else maxSignedWidth rest

/-- The mutable state of an `Array` (`src/torii/hdl/ast.py` lines 1216-1247):
the element list `_inner`, the `_mutable` flag, and `_proxy_at`, the source
location (modelled as an opaque `Nat` token) of the first `Value`-typed index
access.  Integer indexing, slices and iteration do not touch this state and
are not modelled. -/
structure ArrayState (α : Type) where
  inner : List α
  isMutable : Bool
  proxyAt : Option Nat
  deriving DecidableEq, Repr

/-- The failures of `Array` mutators: `frozenAt site` is the `ValueError`
raised by `_check_mutability`, whose message interpolates `_proxy_at` (the
freeze site); `indexError` is Python's `IndexError` on an out-of-range list
index. -/
inductive ArrayError where
  | frozenAt (site : Option Nat)
  | indexError
  deriving DecidableEq, Repr

/-- Embeds `Array.__init__`: a fresh array is mutable with no freeze site. -/
def arrayInit {α : Type} (elems : List α) : ArrayState α := ⟨elems, true, none⟩

/-- Embeds `Array._check_mutability`. -/
def checkMutability {α : Type} (a : ArrayState α) : Except ArrayError Unit :=
  if a.isMutable then .ok () else .error (.frozenAt a.proxyAt)

/-- Embeds `Array.__getitem__` with a `Value`-typed index: on a still-mutable
array, record the access site in `_proxy_at` and clear `_mutable`; the
returned `ArrayProxy` itself does not affect the array state. -/
def getitemValueIndex {α : Type} (a : ArrayState α) (srcLoc : Nat) : ArrayState α :=
  if a.isMutable then { a with proxyAt := some srcLoc, isMutable := false } else a

/-- Embeds `Array.__setitem__` (for an in-range non-negative index):
`_check_mutability`, then update the element. -/
def setitem {α : Type} (a : ArrayState α) (index : Nat) (value : α) :
    Except ArrayError (ArrayState α) :=
  match checkMutability a with
  | .error e => .error e
  | .ok _ =>
    if index < a.inner.length then .ok { a with inner := a.inner.set index value }
    else .error .indexError

/-- Embeds `Array.__delitem__` (for an in-range non-negative index). -/
def delitem {α : Type} (a : ArrayState α) (index : Nat) :
    Except ArrayError (ArrayState α) :=
  match checkMutability a with
  | .error e => .error e
  | .ok _ =>
    if index < a.inner.length then .ok { a with inner := a.inner.eraseIdx index }
    else .error .indexError

/-- Embeds `Array.insert`; Python's `list.insert` clamps the index to the list
length. -/
def insertItem {α : Type} (a : ArrayState α) (index : Nat) (value : α) :
    Except ArrayError (ArrayState α) :=
  match checkMutability a with
  | .error e => .error e
  | .ok _ => .ok { a with inner := a.inner.insertIdx (min index a.inner.length) value }

/-- The operations a client can perform on an `Array` that touch its state. -/
inductive ArrayOp (α : Type) where
  | getValueIndex (srcLoc : Nat)
  | set (index : Nat) (value : α)
  | del (index : Nat)
  | ins (index : Nat) (value : α)

/-- The state after one operation; a mutator that raises leaves the state
unchanged (in the source, `_check_mutability` raises before any mutation). -/
def applyArrayOp {α : Type} (a : ArrayState α) : ArrayOp α → ArrayState α
  | .getValueIndex loc => getitemValueIndex a loc
  | .set i v => match setitem a i v with | .ok a2 => a2 | .error _ => a
  | .del i => match delitem a i with | .ok a2 => a2 | .error _ => a
  | .ins i v => match insertItem a i v with | .ok a2 => a2 | .error _ => a

/-- The `Value` IR node variants that `ValueKey` accepts
(`src/torii/hdl/ast.py` lines 1704-1784).  `Signal`, `AnyConst` and `AnySeq`
carry their process-wide unique `duid`; since ids are never reused, two nodes
are the same Python object (`is`) exactly when their `duid`s agree.  A
`Sample` domain is a string or `None`. -/
inductive V : Type where
  | const (value : Int)
  | signal (duid : Nat) (width : Nat) (signed : Bool) (name : String)
  | anyConst (duid : Nat)
  | anySeq (duid : Nat)
  | clockSignal (domain : String)
  | resetSignal (domain : String)
  | operator (op : String) (operands : List V)
  | slice (value : V) (start stop : Nat)
  | part (value : V) (offset : V) (width stride : Nat)
  | cat (parts : List V)
  | arrayProxy (index : V) (elems : List V)
  | sample (value : V) (clocks : Nat) (domain : Option String)
  | initial

mutual

/-- Embeds `ValueKey.__eq__` (`src/torii/hdl/ast.py` lines 1742-1784).  The
leading `isinstance(self.value, type(other.value))` test makes keys over
different variants unequal (the catch-all case).  Note two faithful oddities
of the source: the `Cat` case zips the part lists with no length comparison
(unlike the `Operator` and `ArrayProxy` cases), and the `Sample` case compares
`self.value.domain == self.value.domain` (line 1780), i.e. the left domain
with itself. -/
def vkeyEq : V → V → Bool
  | .const a, .const b => a == b
  | .signal d _ _ _, .signal e _ _ _ => d == e
  | .anyConst d, .anyConst e => d == e
  | .anySeq d, .anySeq e => d == e
  | .clockSignal a, .clockSignal b => a == b
  | .resetSignal a, .resetSignal b => a == b
  | .operator op xs, .operator op2 ys =>
    op == op2 && xs.length == ys.length && vkeyEqZip xs ys
  | .slice v s e, .slice v2 s2 e2 => vkeyEq v v2 && s == s2 && e == e2
  | .part v o w st, .part v2 o2 w2 st2 =>
    vkeyEq v v2 && vkeyEq o o2 && w == w2 && st == st2
  | .cat xs, .cat ys => vkeyEqZip xs ys
  | .arrayProxy i xs, .arrayProxy i2 ys =>
    vkeyEq i i2 && xs.length == ys.length && vkeyEqZip xs ys
  | .sample v c d, .sample v2 c2 _d2 => vkeyEq v v2 && c == c2 && d == d
  | .initial, .initial => true
  | _, _ => false

/-- `all(ValueKey(a) == ValueKey(b) for a, b in zip(xs, ys))`: `zip` truncates
at the shorter list, so any leftover elements are ignored. -/
def vkeyEqZip : List V → List V → Bool
  | x :: xs, y :: ys => vkeyEq x y && vkeyEqZip xs ys
  | _, _ => true

end

/-- The patterns accepted by `Value.matches` that the claims exercise: an
integer or a bit string (enumeration members contribute `pattern.value` like
integers and are not separately modelled). -/
inductive Pattern : Type where
  | int (n : Int)
  | str (s : String)
  deriving DecidableEq, Repr

/-- One comparison built by `Value.matches`: `(self & mask) == pattern` for a
string pattern, `self == pattern` for an integer pattern. -/
inductive Cmp : Type where
  | maskEq (mask : Nat) (value : Nat)
  | eqConst (value : Int)
  deriving DecidableEq, Repr

/-- Embeds `''.join(pattern.split())` on the strings that reach the length
check: the alphabet check has already restricted them to `0`, `1`, `-`, space
and tab, so Python's all-whitespace split removes exactly spaces and tabs. -/
def stripST (s : String) : List Char :=
  s.data.filter (fun c => !(c == ' ' || c == '\t'))

/-- Value of a bit string under a per-character bit function (big-endian), as
`int(..., 2)` computes it. -/
def bitsVal (f : Char → Nat) (cs : List Char) : Nat :=
  cs.foldl (fun acc c => 2 * acc + f c) 0

/-- `int(pattern.replace('0', '1').replace('-', '0'), 2)`: the mask has a 1
bit wherever the pattern is not a dont-care. -/
def strMask (cs : List Char) : Nat := bitsVal (fun c => if c = '-' then 0 else 1) cs

/-- `int(pattern.replace('-', '0'), 2)`: the compare value has a 1 bit exactly
at the 1 bits of the pattern. -/
def strVal (cs : List Char) : Nat := bitsVal (fun c => if c = '1' then 1 else 0) cs

/-- Embeds the pattern loop of `Value.matches` (`src/torii/hdl/ast.py` lines
450-489) over an operand of the given width: per pattern, a string with a
character outside `01- \t` or whose stripped length differs from the operand
width raises `SyntaxError`; an integer with `bits_for(pattern) > len(self)`
emits a `SyntaxWarning` and is skipped; otherwise one comparison is appended.
The result is the ordered comparison list (from which the source builds
`Const(0)`, the single comparison, or `Cat(*matches).any()`) together with the
emitted warnings. -/
def matchesLoop (width : Nat) : List Pattern → Except String (List Cmp × List String)
  | [] => .ok ([], [])
  | .str s :: rest =>
    if s.data.any (fun c => !(c == '0' || c == '1' || c == '-' || c == ' ' || c == '\t')) then
      .error "SyntaxError: match pattern must consist of 0, 1, and - bits, and may include whitespace"
    else if (stripST s).length ≠ width then
      .error "SyntaxError: match pattern must have the same width as match value"
    else
      match matchesLoop width rest with
      | .error e => .error e
      | .ok (ms, ws) => .ok (.maskEq (strMask (stripST s)) (strVal (stripST s)) :: ms, ws)
  | .int n :: rest =>
    if width < bits_for n false then
      match matchesLoop width rest with
      | .error e => .error e
      | .ok (ms, ws) =>
        .ok (ms, "SyntaxWarning: match pattern is wider than match value" :: ws)
    else
      match matchesLoop width rest with
      | .error e => .error e
      | .ok (ms, ws) => .ok (.eqConst n :: ms, ws)

/-- Claim C1: the addition/subtraction operator shape first promotes the two
operand shapes (both unsigned gives max width unsigned; both signed gives max
width signed; mixed adds 1 to the unsigned side and the result is signed) and
then adds one guard bit; concretely 4-bit unsigned + 4-bit unsigned has shape
unsigned(5), 4-bit signed + 4-bit signed has shape signed(5), and 3-bit
unsigned + 4-bit signed has shape signed(5). -/
theorem addsub_shape_promotes_then_guards : ∀ aw bw : Nat,
    (operatorShape "+" [unsigned aw, unsigned bw] = .ok ⟨max aw bw + 1, false⟩
    ∧ operatorShape "+" [signed aw, signed bw] = .ok ⟨max aw bw + 1, true⟩
    ∧ operatorShape "+" [unsigned aw, signed bw] = .ok ⟨max (aw + 1) bw + 1, true⟩
    ∧ operatorShape "+" [signed aw, unsigned bw] = .ok ⟨max aw (bw + 1) + 1, true⟩
    ∧ operatorShape "-" [unsigned aw, unsigned bw] = .ok ⟨max aw bw + 1, false⟩
    ∧ operatorShape "-" [signed aw, signed bw] = .ok ⟨max aw bw + 1, true⟩
    ∧ operatorShape "-" [unsigned aw, signed bw] = .ok ⟨max (aw + 1) bw + 1, true⟩
    ∧ operatorShape "-" [signed aw, unsigned bw] = .ok ⟨max aw (bw + 1) + 1, true⟩)
    ∧ operatorShape "+" [unsigned 4, unsigned 4] = .ok (unsigned 5)
    ∧ operatorShape "+" [signed 4, signed 4] = .ok (signed 5)
    ∧ operatorShape "+" [unsigned 3, signed 4] = .ok (signed 5) := by
  refine fun aw bw => ⟨⟨?_, ?_, ?_, ?_, ?_, ?_, ?_, ?_⟩, rfl, rfl, rfl⟩ <;>
    simp [operatorShape, bitwiseBinaryShape, unsigned, signed]

/-- Claim C7: `Const.normalize` is idempotent: for every integer `v` and every
shape, renormalizing the result of `normalize v shape` into the same shape
returns it unchanged (and when the first normalization raises, the composite
raises identically, via `Except.bind`).  Consequently a `Const`'s stored value,
normalized at construction, is unchanged by renormalizing into its shape. -/
theorem normalize_idempotent : ∀ (v : Int) (s : Shape),
    (normalize v s).bind (fun r => normalize r s) = normalize v s := by
  intro v s
  have hpos : (0 : Int) < 2 ^ s.width := by positivity
  have hself : v % 2 ^ s.width % 2 ^ s.width = v % 2 ^ s.width :=
    Int.emod_emod_of_dvd v dvd_rfl
  have hsub : (v % 2 ^ s.width - 2 ^ s.width) % 2 ^ s.width = v % 2 ^ s.width := by
    rw [Int.sub_emod, Int.emod_self, sub_zero, hself, hself]
  unfold normalize
  by_cases hsg : s.signed
  · by_cases hw : s.width = 0
    · simp [hsg, hw, Except.bind]
    · by_cases hge : (2 : Int) ^ (s.width - 1) ≤ v % 2 ^ s.width
      · simp [hsg, hw, hge, hsub, Except.bind]
      · simp [hsg, hw, hge, hself, Except.bind]
  · simp [hsg, hself, Except.bind]

/-- Claim C8: building a left shift fails immediately with a TypeError-kind
whenever the shift-amount operand is signed, and no `Operator` node is
constructed in that case; when the shift amount is unsigned, the constructed
node's shape has width `a.width + 2 ^ b.width - 1` and the left operand's
signedness. -/
theorem lshift_signed_amount_rejected : ∀ a b : Shape,
    (b.signed = true → lshift a b = .error "TypeError: Shift amount must be unsigned")
    ∧ (b.signed = false →
        lshift a b = .ok ("<<", [a, b])
        ∧ operatorShape "<<" [a, b] = .ok ⟨a.width + 2 ^ b.width - 1, a.signed⟩) := by
  intro a b
  constructor
  · intro h; simp [lshift, h]
  · intro h; refine ⟨by simp [lshift, h], ?_⟩
    simp [operatorShape, h]

/-- Witness for C8 at concrete inputs: a signed 2-bit shift amount is rejected;
an unsigned 3-bit shift amount over a 4-bit operand gives width
`4 + 2 ^ 3 - 1 = 11`. -/
theorem lshift_signed_amount_rejected_witness :
    lshift (unsigned 4) (signed 2) = .error "TypeError: Shift amount must be unsigned"
    ∧ operatorShape "<<" [unsigned 4, unsigned 3] = .ok ⟨11, false⟩ :=
  ⟨(lshift_signed_amount_rejected (unsigned 4) (signed 2)).1 rfl,
    ((lshift_signed_amount_rejected (unsigned 4) (unsigned 3)).2 rfl).2⟩

/-- Claim C2 is refuted by the code: for `range(0, 10, 3)` the element `9` is
in the range, but `Shape.cast` computes the width from `stop - step = 7`
(which is not the last element) and returns `unsigned(3)`, which cannot
represent `9`.  This contradicts the docstring of `Shape` ("wide enough to
represent any element of the range") and the spec. -/
theorem rangeShape_not_wide_enough :
    PyRange.mem ⟨0, 10, 3⟩ 9
    ∧ rangeShape ⟨0, 10, 3⟩ = unsigned 3
    ∧ ¬ Shape.represents (rangeShape ⟨0, 10, 3⟩) 9 := by
  refine ⟨by decide, by decide, by decide⟩

theorem natBitsAux_length_le (fuel : Nat) : ∀ (n : Nat) (acc : List Char) (w : Nat),
    1 ≤ w → n < 2 ^ w → (natBitsAux fuel n acc).length ≤ w + acc.length := by
  induction fuel with
  | zero => intro n acc w _ _; simp [natBitsAux]
  | succ fuel ih =>
    intro n acc w h1 h2
    simp only [natBitsAux]
    by_cases h : n / 2 = 0
    · simp [h]; omega
    · simp only [h, if_false]
      have hn2 : 2 ≤ n := by omega
      have hw2 : 2 ≤ w := by
        by_contra hcon
        have hw1 : w = 1 := by omega
        rw [hw1] at h2
        norm_num at h2
        omega
      have hpow : 2 ^ (w - 1) * 2 = 2 ^ w := by
        rw [← pow_succ]
        congr 1
        omega
      have h2' : n / 2 < 2 ^ (w - 1) := by
        rw [Nat.div_lt_iff_lt_mul (by omega : 0 < 2), hpow]
        exact h2
      have := ih (n / 2) ((if n % 2 = 1 then '1' else '0') :: acc) (w - 1) (by omega) h2'
      simp only [List.length_cons] at this ⊢
      omega

theorem formatBin_length_le {n w : Nat} (h1 : 1 ≤ w) (h2 : n < 2 ^ w) :
    (formatBin n).length ≤ w := by
  have := natBitsAux_length_le (n + 1) n [] w h1 h2
  simpa [formatBin, String.length] using this

theorem rjust_length {s : String} {w : Nat} (fill : Char) (h : s.length ≤ w) :
    (rjust s w fill).length = w := by
  have hmk : ∀ l : List Char, (String.mk l).length = l.length := fun l => rfl
  unfold rjust
  rw [hmk, List.length_append, List.length_replicate]
  have hsd : s.length = s.data.length := rfl
  omega

/-- Claim C10 as stated is refuted at a width-0 test: for `Switch` over a
0-bit test value, any integer case key makes `format(key & 0, 'b')` produce
the one-character string `'0'`, so the internal
`assert len(key) == len(self.test)` fails and an error is raised, while the
claim says an integer key `never raises an error`. -/
theorem switchKeyInt_width_zero_raises :
    switchKeyInt 0 5 = .error "AssertionError" := rfl

/-- Claim C10 (amended): for a test of width at least 1, an integer or
enum-member case key never raises: it is normalized to the binary string of
its value masked with `2 ^ width - 1`, zero-padded on the left to the test
width (which the internal assertion then accepts); an integer key wider than
the test is silently truncated to its low bits (it normalizes exactly like
`key mod 2 ^ width`). -/
theorem switchKeyInt_normalizes (w : Nat) (key : Int) (h : 1 ≤ w) :
    switchKeyInt w key = .ok (rjust (formatBin (key % (2 : Int) ^ w).toNat) w '0')
    ∧ switchKeyInt w key = switchKeyInt w (key % (2 : Int) ^ w)
    ∧ (rjust (formatBin (key % (2 : Int) ^ w).toNat) w '0').length = w := by
  have hpos : (0 : Int) < 2 ^ w := by positivity
  have h0 : 0 ≤ key % 2 ^ w := Int.emod_nonneg key (by positivity)
  have h1 : key % 2 ^ w < 2 ^ w := Int.emod_lt_of_pos key hpos
  have hcast : ((2 : Int) ^ w) = ((2 ^ w : Nat) : Int) := by push_cast; ring
  have hmask : (key % 2 ^ w).toNat < 2 ^ w := by
    rw [hcast] at h1 h0
    omega
  have hlen : (rjust (formatBin (key % (2 : Int) ^ w).toNat) w '0').length = w :=
    rjust_length '0' (formatBin_length_le h hmask)
  refine ⟨?_, ?_, hlen⟩
  · unfold switchKeyInt
    rw [if_pos hlen]
  · unfold switchKeyInt
    rw [Int.emod_emod_of_dvd key dvd_rfl]

/-- Witness for the amended C10 at concrete inputs: a 4-bit test normalizes
key 2 to the padded binary string, and key 18 is truncated to its low 4 bits. -/
theorem switchKeyInt_normalizes_witness :
    switchKeyInt 4 2 = .ok (rjust (formatBin ((2 : Int) % (2 : Int) ^ 4).toNat) 4 '0')
    ∧ switchKeyInt 4 18 = switchKeyInt 4 ((18 : Int) % (2 : Int) ^ 4) :=
  ⟨(switchKeyInt_normalizes 4 2 (by norm_num)).1,
    (switchKeyInt_normalizes 4 18 (by norm_num)).2.1⟩

/-- Claim C5 is refuted by the code: the `Cat` case of `ValueKey.__eq__` zips
the part lists with no length comparison (unlike the `Operator` and
`ArrayProxy` cases), so the keys of `Cat(s0)` and `Cat(s0, s1)` compare equal
even though the part counts differ (while `__hash__` hashes the full part
tuple).  The other conjuncts of the claim do hold: equal part lists over the
same signals compare equal, and two distinct signals (distinct `duid`s)
compare unequal even with identical width and name. -/
theorem vkeyEq_cat_ignores_part_count :
    vkeyEq (.cat [.signal 0 1 false "a"])
           (.cat [.signal 0 1 false "a", .signal 1 1 false "a"]) = true
    ∧ [V.signal 0 1 false "a"].length ≠ [V.signal 0 1 false "a", V.signal 1 1 false "a"].length
    ∧ vkeyEq (.cat [.signal 0 1 false "a", .signal 1 1 false "b"])
             (.cat [.signal 0 1 false "a", .signal 1 1 false "b"]) = true
    ∧ vkeyEq (.signal 0 1 false "x") (.signal 1 1 false "x") = false := by
  refine ⟨?_, by simp, ?_, ?_⟩ <;> simp [vkeyEq, vkeyEqZip]

/-- Claim C6 is refuted by the code: the `Sample` case of `ValueKey.__eq__`
(line 1780) compares `self.value.domain == self.value.domain`, the left
domain with itself, so two samples of the same base and clock count but
different domains still get equal keys. -/
theorem vkeyEq_sample_ignores_domain :
    vkeyEq (.sample (.signal 0 1 false "s") 1 (some "a"))
           (.sample (.signal 0 1 false "s") 1 (some "b")) = true
    ∧ (some "a" : Option String) ≠ some "b" := by
  refine ⟨by simp [vkeyEq], by simp⟩

theorem applyArrayOp_frozen {α : Type} (a : ArrayState α) (op : ArrayOp α)
    (h : a.isMutable = false) :
    (applyArrayOp a op).isMutable = false ∧ (applyArrayOp a op).proxyAt = a.proxyAt := by
  cases op <;>
    simp [applyArrayOp, getitemValueIndex, setitem, delitem, insertItem, checkMutability, h]

/-- Claim C4: an `Array`'s mutability transition is one-way.  On a mutable
array, element assignment, deletion and insertion succeed; the first
`Value`-typed index access freezes the array, recording its source location;
on a frozen array every mutation fails with the error that carries the
recorded freeze site; and no sequence of operations ever unfreezes the array
or changes the recorded site. -/
theorem array_freeze_one_way :
    ∀ (α : Type),
      (∀ elems : List α, (arrayInit elems).isMutable = true ∧ (arrayInit elems).proxyAt = none)
      ∧ (∀ (a : ArrayState α) (i : Nat) (v : α), a.isMutable = true → i < a.inner.length →
          setitem a i v = .ok { a with inner := a.inner.set i v })
      ∧ (∀ (a : ArrayState α) (i : Nat), a.isMutable = true → i < a.inner.length →
          delitem a i = .ok { a with inner := a.inner.eraseIdx i })
      ∧ (∀ (a : ArrayState α) (i : Nat) (v : α), a.isMutable = true →
          insertItem a i v = .ok { a with inner := a.inner.insertIdx (min i a.inner.length) v })
      ∧ (∀ (a : ArrayState α) (loc : Nat), a.isMutable = true →
          getitemValueIndex a loc = { a with isMutable := false, proxyAt := some loc })
      ∧ (∀ (a : ArrayState α) (L i : Nat) (v : α), a.isMutable = false → a.proxyAt = some L →
          setitem a i v = .error (.frozenAt (some L))
          ∧ delitem a i = .error (.frozenAt (some L))
          ∧ insertItem a i v = .error (.frozenAt (some L)))
      ∧ (∀ (a : ArrayState α) (ops : List (ArrayOp α)), a.isMutable = false →
          (ops.foldl applyArrayOp a).isMutable = false
          ∧ (ops.foldl applyArrayOp a).proxyAt = a.proxyAt) := by
  intro α
  refine ⟨fun elems => ⟨rfl, rfl⟩, ?_, ?_, ?_, ?_, ?_, ?_⟩
  · intro a i v hm hi
    simp [setitem, checkMutability, hm, hi]
  · intro a i hm hi
    simp [delitem, checkMutability, hm, hi]
  · intro a i v hm
    simp [insertItem, checkMutability, hm]
  · intro a loc hm
    simp [getitemValueIndex, hm]
  · intro a L i v hm hp
    refine ⟨?_, ?_, ?_⟩ <;> simp [setitem, delitem, insertItem, checkMutability, hm, hp]
  · intro a ops
    induction ops generalizing a with
    | nil => intro h; exact ⟨h, rfl⟩
    | cons op rest ih =>
      intro h
      have hstep := applyArrayOp_frozen a op h
      have := ih (applyArrayOp a op) hstep.1
      simp only [List.foldl_cons]
      exact ⟨this.1, this.2.trans hstep.2⟩

/-- Witness for C4 at concrete inputs: on `Array([1, 2])`, assignment
succeeds while mutable; a `Value` index access at source location 7 freezes
it there; assignment then fails citing location 7; and further operations
keep it frozen at location 7. -/
theorem array_freeze_one_way_witness :
    setitem (⟨[1, 2], true, none⟩ : ArrayState Nat) 0 5 = .ok ⟨[5, 2], true, none⟩
    ∧ getitemValueIndex (⟨[1, 2], true, none⟩ : ArrayState Nat) 7 = ⟨[1, 2], false, some 7⟩
    ∧ setitem (⟨[1, 2], false, some 7⟩ : ArrayState Nat) 0 5 = .error (.frozenAt (some 7))
    ∧ ([ArrayOp.set 0 5, ArrayOp.getValueIndex 9].foldl applyArrayOp
        (⟨[1, 2], false, some 7⟩ : ArrayState Nat)).proxyAt = some 7 :=
  ⟨((array_freeze_one_way Nat).2.1 ⟨[1, 2], true, none⟩ 0 5 rfl (by decide)),
    ((array_freeze_one_way Nat).2.2.2.2.1 ⟨[1, 2], true, none⟩ 7 rfl),
    ((array_freeze_one_way Nat).2.2.2.2.2.1 ⟨[1, 2], false, some 7⟩ 7 0 5 rfl rfl).1,
    ((array_freeze_one_way Nat).2.2.2.2.2.2 ⟨[1, 2], false, some 7⟩
      [ArrayOp.set 0 5, ArrayOp.getValueIndex 9] rfl).2⟩

theorem proxyFold_spec (elems : List Shape) (acc : ProxyAcc) :
    elems.foldl proxyShapeStep acc =
      ⟨max acc.unsignedWidth (maxUnsignedWidth elems),
       max acc.signedWidth (maxSignedWidth elems),
       acc.hasUnsigned || elems.any (fun s => !s.signed),
       acc.hasSigned || elems.any (fun s => s.signed)⟩ := by
  induction elems generalizing acc with
  | nil => simp [maxUnsignedWidth, maxSignedWidth]
  | cons s rest ih =>
    simp only [List.foldl_cons, List.any_cons, maxUnsignedWidth, maxSignedWidth]
    rw [ih]
    cases hs : s.signed <;>
      simp [proxyShapeStep, hs, ProxyAcc.mk.injEq, Bool.or_assoc] <;>
      omega

theorem width_le_maxUnsignedWidth {elems : List Shape} {s : Shape}
    (hmem : s ∈ elems) (hs : s.signed = false) : s.width ≤ maxUnsignedWidth elems := by
  induction elems with
  | nil => simp at hmem
  | cons t rest ih =>
    rcases List.mem_cons.mp hmem with rfl | hmem'
    · simp [maxUnsignedWidth, hs]
    · have := ih hmem'
      by_cases ht : t.signed = true <;> simp [maxUnsignedWidth, ht] <;> omega

theorem width_le_maxSignedWidth {elems : List Shape} {s : Shape}
    (hmem : s ∈ elems) (hs : s.signed = true) : s.width ≤ maxSignedWidth elems := by
  induction elems with
  | nil => simp at hmem
  | cons t rest ih =>
    rcases List.mem_cons.mp hmem with rfl | hmem'
    · simp [maxSignedWidth, hs]
    · have := ih hmem'
      by_cases ht : t.signed = true <;> simp [maxSignedWidth, ht] <;> omega

theorem two_pow_mono {m n : Nat} (h : m ≤ n) : (2 : Int) ^ m ≤ 2 ^ n :=
  pow_le_pow_right₀ (by norm_num) h

theorem represents_signed_of {W w : Nat} {v : Int} (h0 : -((2 : Int) ^ w) ≤ v)
    (hlt : v < 2 ^ w) (hle : w ≤ W - 1) : (signed W).represents v := by
  refine Or.inr ⟨rfl, ?_, ?_⟩
  · refine le_trans ?_ h0
    simpa [signed] using neg_le_neg (two_pow_mono hle)
  · refine lt_of_lt_of_le hlt ?_
    simpa [signed] using two_pow_mono hle

theorem represents_unsigned_of {W w : Nat} {v : Int} (h0 : 0 ≤ v) (hlt : v < 2 ^ w)
    (hle : w ≤ W) : (unsigned W).represents v :=
  Or.inl ⟨rfl, h0, lt_of_lt_of_le hlt (two_pow_mono hle)⟩

/-- Claim C3: `ArrayProxy.shape()` preserves every element's mathematical
value (any value representable in an element's shape is representable in the
proxy's shape, as it would be in an equivalent mux tree); when the elements
mix signed and unsigned shapes and the maximum unsigned width is at least the
maximum signed width, the result is signed with width one more than the
maximum unsigned width; and concretely the shapes of `Const(3, unsigned(2))`
and `Const(-1, signed(2))` give `signed(3)`. -/
theorem arrayProxy_shape_widens :
    (∀ (elems : List Shape) (s : Shape), s ∈ elems → ∀ v : Int,
        s.represents v → (proxyShape elems).represents v)
    ∧ (∀ elems : List Shape,
        (∃ s ∈ elems, s.signed = true) → (∃ s ∈ elems, s.signed = false) →
        maxSignedWidth elems ≤ maxUnsignedWidth elems →
        proxyShape elems = signed (maxUnsignedWidth elems + 1))
    ∧ proxyShape [unsigned 2, signed 2] = signed 3 := by
  have hany : ∀ (elems : List Shape) (s : Shape) (b : Bool), s ∈ elems → s.signed = b →
      elems.any (fun t => t.signed == b) = true :=
    fun elems s b hmem hs => List.any_eq_true.mpr ⟨s, hmem, by simp [hs]⟩
  refine ⟨?_, ?_, by decide⟩
  · intro elems s hmem v hrep
    unfold proxyShape
    rw [proxyFold_spec]
    simp only [Nat.zero_max, Bool.false_or]
    rcases hrep with ⟨hs, hv0, hvlt⟩ | ⟨hs, hvlo, hvhi⟩
    · -- the element is unsigned
      have hU : elems.any (fun t => !t.signed) = true := by
        have := hany elems s false hmem hs
        simpa using this
      have hwle : s.width ≤ maxUnsignedWidth elems := width_le_maxUnsignedWidth hmem hs
      have hvneg : -((2 : Int) ^ s.width) ≤ v :=
        le_trans (neg_nonpos.mpr (by positivity)) hv0
      by_cases hS : elems.any (fun t => t.signed) = true
      · by_cases hle : maxSignedWidth elems ≤ maxUnsignedWidth elems
        · rw [if_pos (by simp [hS, hU, hle])]
          exact represents_signed_of hvneg hvlt (by omega)
        · rw [if_neg (by simp [hle]), hS]
          exact represents_signed_of hvneg hvlt (by omega)
      · have hS2 : elems.any (fun t => t.signed) = false := by simpa using hS
        rw [if_neg (by simp [hS2]), hS2]
        exact represents_unsigned_of hv0 hvlt (by omega)
    · -- the element is signed
      have hS : elems.any (fun t => t.signed) = true := by
        have := hany elems s true hmem hs
        simpa using this
      have hwle : s.width ≤ maxSignedWidth elems := width_le_maxSignedWidth hmem hs
      by_cases hcond : (elems.any (fun t => !t.signed) = true)
          ∧ maxSignedWidth elems ≤ maxUnsignedWidth elems
      · rw [if_pos (by simp [hS, hcond.1, hcond.2])]
        exact represents_signed_of hvlo hvhi (by omega)
      · have hif : ¬(elems.any (fun t => t.signed) && elems.any (fun t => !t.signed)
            && decide (maxSignedWidth elems ≤ maxUnsignedWidth elems)) = true := by
          simp only [Bool.and_eq_true, decide_eq_true_eq]
          intro hcontra
          exact hcond ⟨hcontra.1.2, hcontra.2⟩
        rw [if_neg hif, hS]
        exact represents_signed_of hvlo hvhi (by omega)
  · intro elems hsig huns hle
    obtain ⟨s1, hm1, hs1⟩ := hsig
    obtain ⟨s0, hm0, hs0⟩ := huns
    have hS := hany elems s1 true hm1 hs1
    have hU := hany elems s0 false hm0 hs0
    simp only [beq_true, beq_false] at hS hU
    unfold proxyShape
    rw [proxyFold_spec]
    simp only [Nat.zero_max, Bool.false_or]
    rw [if_pos (by simp [hS, hU, hle])]

/-- Witness for C3 at the concrete input `[unsigned 2, signed 2]`: the mixed
rule fires (giving `signed(maxUnsignedWidth + 1)`), and the value 3 of the
unsigned element is representable in the proxy shape. -/
theorem arrayProxy_shape_widens_witness :
    proxyShape [unsigned 2, signed 2] = signed (maxUnsignedWidth [unsigned 2, signed 2] + 1)
    ∧ Shape.represents (proxyShape [unsigned 2, signed 2]) 3 :=
  ⟨arrayProxy_shape_widens.2.1 [unsigned 2, signed 2]
      ⟨signed 2, by decide, rfl⟩ ⟨unsigned 2, by decide, rfl⟩ (by decide),
    arrayProxy_shape_widens.1 [unsigned 2, signed 2] (unsigned 2) (by decide) 3 (by decide)⟩

/-- Claim C9: in `Value.matches`, a string pattern whose non-whitespace
length differs from the operand width, or that contains a character outside
`0`, `1`, `-` and whitespace, makes the call raise a SyntaxError-kind; an
integer pattern needing more bits than the operand width never raises: it is
dropped after emitting a non-fatal warning and contributes no comparison to
the built expression. -/
theorem matches_string_errors_and_int_drops :
    (∀ (width : Nat) (ps : List Pattern) (s : String), Pattern.str s ∈ ps →
        ((s.data.filter (fun c => !c.isWhitespace)).length ≠ width
          ∨ s.data.any (fun c => !(c == '0' || c == '1' || c == '-' || c.isWhitespace)) = true) →
        ∃ e, matchesLoop width ps = .error e)
    ∧ (∀ (width : Nat) (n : Int) (ps : List Pattern), width < bits_for n false →
        matchesLoop width (.int n :: ps)
          = (matchesLoop width ps).map
              (fun r => (r.1, "SyntaxWarning: match pattern is wider than match value" :: r.2))) := by
  constructor
  · intro width ps s
    induction ps with
    | nil => intro hmem _; simp at hmem
    | cons p rest ih =>
      intro hmem hcond
      rcases List.mem_cons.mp hmem with heq | hmem2
      · -- the offending pattern is at the head of the list
        subst heq
        simp only [matchesLoop]
        by_cases hA : s.data.any
            (fun c => !(c == '0' || c == '1' || c == '-' || c == ' ' || c == '\t')) = true
        · rw [if_pos hA]
          exact ⟨_, rfl⟩
        · -- the string passed the alphabet check: every character is one of
          -- 0, 1, -, space, tab, so the claimed bad-character case is
          -- impossible and the stripped length equals the non-whitespace
          -- length
          have hall : ∀ c ∈ s.data, c = '0' ∨ c = '1' ∨ c = '-' ∨ c = ' ' ∨ c = '\t' := by
            intro c hc
            by_contra hcon
            push_neg at hcon
            refine hA (List.any_eq_true.mpr ⟨c, hc, ?_⟩)
            obtain ⟨h1, h2, h3, h4, h5⟩ := hcon
            simp [h1, h2, h3, h4, h5]
          have hfilter : s.data.filter (fun c => !c.isWhitespace) = stripST s := by
            unfold stripST
            refine List.filter_congr ?_
            intro c hc
            rcases hall c hc with rfl | rfl | rfl | rfl | rfl <;> decide
          have hlen : (stripST s).length ≠ width := by
            rcases hcond with hlen | hbad
            · rw [hfilter] at hlen
              exact hlen
            · exfalso
              obtain ⟨c, hc, hbadc⟩ := List.any_eq_true.mp hbad
              rcases hall c hc with rfl | rfl | rfl | rfl | rfl <;> simp at hbadc
          rw [if_neg hA, if_pos hlen]
          exact ⟨_, rfl⟩
      · -- the offending pattern is further down: every arm of the head either
        -- raises itself or propagates the error of the rest of the loop
        obtain ⟨e, he⟩ := ih hmem2 hcond
        cases p with
        | str t =>
          simp only [matchesLoop]
          by_cases hA : t.data.any
              (fun c => !(c == '0' || c == '1' || c == '-' || c == ' ' || c == '\t')) = true
          · rw [if_pos hA]
            exact ⟨_, rfl⟩
          · rw [if_neg hA]
            by_cases hB : (stripST t).length ≠ width
            · rw [if_pos hB]
              exact ⟨_, rfl⟩
            · rw [if_neg hB, he]
              exact ⟨e, rfl⟩
        | int n =>
          simp only [matchesLoop]
          by_cases hn : width < bits_for n false
          · rw [if_pos hn, he]
            exact ⟨e, rfl⟩
          · rw [if_neg hn, he]
            exact ⟨e, rfl⟩
  · intro width n ps h
    simp only [matchesLoop, if_pos h]
    cases hr : matchesLoop width ps with
    | error e => simp [Except.map]
    | ok r => simp [Except.map]

/-- Witness for C9 at concrete inputs: the 1-character pattern string `1`
against a 4-bit operand raises (length mismatch), and the oversized integer
pattern 16 against a 4-bit operand is dropped with one warning and no
comparison. -/
theorem matches_string_errors_and_int_drops_witness :
    (∃ e, matchesLoop 4 [Pattern.str "1"] = .error e)
    ∧ matchesLoop 4 [Pattern.int 16]
        = (matchesLoop 4 ([] : List Pattern)).map
            (fun r => (r.1, "SyntaxWarning: match pattern is wider than match value" :: r.2)) :=
  ⟨matches_string_errors_and_int_drops.1 4 [Pattern.str "1"] "1" (by decide)
      (Or.inl (by decide)),
    matches_string_errors_and_int_drops.2 4 16 [] (by decide)⟩

end Torii
